import Mathlib

/-!
Verification development for the parseo SEO-analysis service
(`src/seo_analyzer.py` and `src/app.py`).

The pure analysis pipeline (text normalization, Porter stemming, keyword
selection, URL/link classification, readability interpretation) is embedded
as executable Lean functions, translated from the Python source.  The
orchestrator `analyze_url` is embedded with explicit exception semantics
(`Except`) over an opaque parsed-document collaborator.  External library
routines that the source instantiates directly and whose behaviour the
claims depend on (NLTK PorterStemmer in its default NLTK_EXTENSIONS mode,
the NLTK english stop-word corpus, `urllib.parse` resolution) are
translated from those libraries; black-box collaborators (requests,
BeautifulSoup) are modelled by their outcomes.
-/

namespace Parseo

/-! ## Porter stemmer (nltk.stem.PorterStemmer, default NLTK_EXTENSIONS mode)

`SEOAnalyzer.__init__` sets `self.stemmer = PorterStemmer()`.  Words are
lists of characters; all inputs reaching the stemmer are lowercase ASCII
words (the normalizer lowercases and strips non-word characters first). -/

namespace Porter

def vowels : List Char := ['a', 'e', 'i', 'o', 'u']

/-- `_is_consonant(word, i)`: a letter is a consonant unless it is a vowel,
and `y` is a consonant exactly when it is word-initial or follows a
non-consonant.  Out-of-range indices never occur in the library; we return
`false` there. -/
def isConsonant (w : List Char) : Nat → Bool
  | 0 =>
    match w[0]? with
    | none => false
    | some c => !(vowels.contains c)
  | i + 1 =>
    match w[i + 1]? with
    | none => false
    | some c =>
      if vowels.contains c then false
      else if c = 'y' then !(isConsonant w i)
      else true

/-- The consonant/vowel shape of a word: `true` marks a consonant. -/
def cvList (w : List Char) : List Bool :=
  (List.range w.length).map (isConsonant w)

/-- Number of (non-overlapping) occurrences of the pattern vowel-consonant,
i.e. `cv_sequence.count("vc")`. -/
def countVC : List Bool → Nat
  | false :: true :: rest => countVC (true :: rest) + 1
  | _ :: rest => countVC rest
  | [] => 0

/-- `_measure`: the m value of the published algorithm. -/
def measure (w : List Char) : Nat := countVC (cvList w)

def hasPositiveMeasure (w : List Char) : Bool := decide (0 < measure w)

def containsVowel (w : List Char) : Bool :=
  (List.range w.length).any (fun i => !(isConsonant w i))

/-- `_ends_double_consonant`: the word ends in two identical consonants. -/
def endsDouble (w : List Char) : Bool :=
  decide (2 ≤ w.length)
    && (w[w.length - 1]? == w[w.length - 2]?)
    && isConsonant w (w.length - 1)

def lastNotWXY (w : List Char) : Bool :=
  match w.getLast? with
  | none => false
  | some c => !(['w', 'x', 'y'].contains c)

/-- `_ends_cvc`, including the NLTK-extension clause for two-letter words. -/
def endsCVC (w : List Char) : Bool :=
  (decide (3 ≤ w.length)
      && isConsonant w (w.length - 3)
      && !(isConsonant w (w.length - 2))
      && isConsonant w (w.length - 1)
      && lastNotWXY w)
    || (decide (w.length = 2) && !(isConsonant w 0) && isConsonant w 1)

/-- Drop the last `n` characters (`word[:-n]`). -/
def dropLastN (w : List Char) (n : Nat) : List Char := w.take (w.length - n)

def condHolds (cond : Option (List Char → Bool)) (stem : List Char) : Bool :=
  match cond with
  | none => true
  | some f => f stem

/-- `_apply_rule_list`: try each (suffix, replacement, condition) rule in
order; the pseudo-suffix `*d` matches a double consonant ending.  A rule
whose suffix matches stops the scan whether or not its condition holds. -/
def applyRuleList (w : List Char)
    : List (List Char × List Char × Option (List Char → Bool)) → List Char
  | [] => w
  | (suf, repl, cond) :: rest =>
    if suf = ['*', 'd'] && endsDouble w then
      let stem := dropLastN w 2
      if condHolds cond stem then stem ++ repl else w
    else if suf.isSuffixOf w then
      let stem := dropLastN w suf.length
      if condHolds cond stem then stem ++ repl else w
    else applyRuleList w rest

def step1a (w : List Char) : List Char :=
  if "ies".toList.isSuffixOf w && decide (w.length = 4) then
    dropLastN w 3 ++ "ie".toList
  else
    applyRuleList w
      [("sses".toList, "ss".toList, none),
       ("ies".toList, "i".toList, none),
       ("ss".toList, "ss".toList, none),
       ("s".toList, [], none)]

def step1b (w : List Char) : List Char :=
  if "ied".toList.isSuffixOf w then
    if w.length = 4 then dropLastN w 3 ++ "ie".toList else dropLastN w 3 ++ "i".toList
  else if "eed".toList.isSuffixOf w then
    let stem := dropLastN w 3
    if 0 < measure stem then stem ++ "ee".toList else w
  else
    let istem? : Option (List Char) :=
      if "ed".toList.isSuffixOf w && containsVowel (dropLastN w 2) then
        some (dropLastN w 2)
      else if "ing".toList.isSuffixOf w && containsVowel (dropLastN w 3) then
        some (dropLastN w 3)
      else none
    match istem? with
    | none => w
    | some istem =>
      let lastC := istem.getLastD 'a'
      applyRuleList istem
        [("at".toList, "ate".toList, none),
         ("bl".toList, "ble".toList, none),
         ("iz".toList, "ize".toList, none),
         (['*', 'd'], [lastC], some (fun _ => !(['l', 's', 'z'].contains lastC))),
         ([], "e".toList, some (fun stem => decide (measure stem = 1) && endsCVC stem))]

def step1c (w : List Char) : List Char :=
  applyRuleList w
    [("y".toList, "i".toList,
      some (fun stem => decide (1 < stem.length) && isConsonant stem (stem.length - 1)))]

theorem length_le_of_isSuffixOf {s w : List Char} (h : s.isSuffixOf w) :
    s.length ≤ w.length :=
  (List.isSuffixOf_iff_suffix.mp h).length_le

/-- Step 2 of the stemmer.  The NLTK extension applies the `alli -> al` rule
first and, when it fires, re-runs step 2 on the result; the `logi` rule
conditions on the measure of the word with its last three letters removed.
The recursion is given as structural recursion on a fuel argument so that
the kernel can evaluate it; `step2` below supplies fuel equal to the word
length, which bounds the recursion: the recursive call needs a word of
length at least 4 (an `alli` suffix) and shortens it by two. -/
def step2Fuel : Nat → List Char → List Char
  | 0, w => w
  | fuel + 1, w =>
    if "alli".toList.isSuffixOf w && hasPositiveMeasure (dropLastN w 4) then
      step2Fuel fuel (dropLastN w 4 ++ "al".toList)
    else
      applyRuleList w
      [("ational".toList, "ate".toList, some hasPositiveMeasure),
       ("tional".toList, "tion".toList, some hasPositiveMeasure),
       ("enci".toList, "ence".toList, some hasPositiveMeasure),
       ("anci".toList, "ance".toList, some hasPositiveMeasure),
       ("izer".toList, "ize".toList, some hasPositiveMeasure),
       ("bli".toList, "ble".toList, some hasPositiveMeasure),
       ("alli".toList, "al".toList, some hasPositiveMeasure),
       ("entli".toList, "ent".toList, some hasPositiveMeasure),
       ("eli".toList, "e".toList, some hasPositiveMeasure),
       ("ousli".toList, "ous".toList, some hasPositiveMeasure),
       ("ization".toList, "ize".toList, some hasPositiveMeasure),
       ("ation".toList, "ate".toList, some hasPositiveMeasure),
       ("ator".toList, "ate".toList, some hasPositiveMeasure),
       ("alism".toList, "al".toList, some hasPositiveMeasure),
       ("iveness".toList, "ive".toList, some hasPositiveMeasure),
       ("fulness".toList, "ful".toList, some hasPositiveMeasure),
       ("ousness".toList, "ous".toList, some hasPositiveMeasure),
       ("aliti".toList, "al".toList, some hasPositiveMeasure),
       ("iviti".toList, "ive".toList, some hasPositiveMeasure),
       ("biliti".toList, "ble".toList, some hasPositiveMeasure),
       ("fulli".toList, "ful".toList, some hasPositiveMeasure),
       ("logi".toList, "log".toList,
        some (fun _ => hasPositiveMeasure (dropLastN w 3)))]

def step2 (w : List Char) : List Char := step2Fuel w.length w

def step3 (w : List Char) : List Char :=
  applyRuleList w
    [("icate".toList, "ic".toList, some hasPositiveMeasure),
     ("ative".toList, [], some hasPositiveMeasure),
     ("alize".toList, "al".toList, some hasPositiveMeasure),
     ("iciti".toList, "ic".toList, some hasPositiveMeasure),
     ("ical".toList, "ic".toList, some hasPositiveMeasure),
     ("ful".toList, [], some hasPositiveMeasure),
     ("ness".toList, [], some hasPositiveMeasure)]

def measureGT1 (stem : List Char) : Bool := decide (1 < measure stem)

def step4 (w : List Char) : List Char :=
  applyRuleList w
    [("al".toList, [], some measureGT1),
     ("ance".toList, [], some measureGT1),
     ("ence".toList, [], some measureGT1),
     ("er".toList, [], some measureGT1),
     ("ic".toList, [], some measureGT1),
     ("able".toList, [], some measureGT1),
     ("ible".toList, [], some measureGT1),
     ("ant".toList, [], some measureGT1),
     ("ement".toList, [], some measureGT1),
     ("ment".toList, [], some measureGT1),
     ("ent".toList, [], some measureGT1),
     ("ion".toList, [],
      some (fun stem => measureGT1 stem && ['s', 't'].contains (stem.getLastD ' '))),
     ("ou".toList, [], some measureGT1),
     ("ism".toList, [], some measureGT1),
     ("ate".toList, [], some measureGT1),
     ("iti".toList, [], some measureGT1),
     ("ous".toList, [], some measureGT1),
     ("ive".toList, [], some measureGT1),
     ("ize".toList, [], some measureGT1)]

def step5a (w : List Char) : List Char :=
  if "e".toList.isSuffixOf w then
    let stem := dropLastN w 1
    if 1 < measure stem then stem
    else if measure stem = 1 && !(endsCVC stem) then stem
    else w
  else w

def step5b (w : List Char) : List Char :=
  applyRuleList w
    [("ll".toList, "l".toList,
      some (fun _ => decide (1 < measure (dropLastN w 1))))]

/-- The NLTK irregular-forms pool, flattened to `surface form -> stem`. -/
def pool : List (String × String) :=
  [("sky", "sky"), ("skies", "sky"),
   ("dying", "die"), ("lying", "lie"), ("tying", "tie"),
   ("news", "news"),
   ("innings", "inning"), ("inning", "inning"),
   ("outings", "outing"), ("outing", "outing"),
   ("cannings", "canning"), ("canning", "canning"),
   ("howe", "howe"),
   ("proceed", "proceed"), ("exceed", "exceed"), ("succeed", "succeed")]

/-- `PorterStemmer.stem(word)` with `to_lowercase=True`: lowercase, then
the irregular pool, then the length-2 shortcut, then the eight steps. -/
def stem (word : String) : String :=
  let stemw : List Char := word.toList.map Char.toLower
  if (pool.lookup word).isSome then
    ((pool.lookup (String.mk stemw)).getD (String.mk stemw))
  else if word.length ≤ 2 then word
  else
    String.mk (step5b (step5a (step4 (step3 (step2 (step1c (step1b (step1a stemw))))))))

end Porter

/-! ## Text normalizer (`SEOAnalyzer.clean_text`) -/

/-- The NLTK `stopwords.words("english")` corpus referenced by
`SEOAnalyzer.__init__` (entries containing an apostrophe are written with
the `\x27` escape). -/
def nltk_english_stopwords : List String :=
  ["i", "me", "my", "myself", "we", "our", "ours", "ourselves",
   "you", "you\x27re", "you\x27ve", "you\x27ll", "you\x27d",
   "your", "yours", "yourself", "yourselves",
   "he", "him", "his", "himself", "she", "she\x27s", "her", "hers", "herself",
   "it", "it\x27s", "its", "itself",
   "they", "them", "their", "theirs", "themselves",
   "what", "which", "who", "whom", "this", "that", "that\x27ll",
   "these", "those", "am", "is", "are", "was", "were",
   "be", "been", "being", "have", "has", "had", "having",
   "do", "does", "did", "doing",
   "a", "an", "the", "and", "but", "if", "or", "because", "as",
   "until", "while", "of", "at", "by", "for", "with", "about", "against",
   "between", "into", "through", "during", "before", "after",
   "above", "below", "to", "from", "up", "down", "in", "out",
   "on", "off", "over", "under", "again", "further", "then", "once",
   "here", "there", "when", "where", "why", "how",
   "all", "any", "both", "each", "few", "more", "most", "other",
   "some", "such", "no", "nor", "not", "only", "own", "same",
   "so", "than", "too", "very",
   "s", "t", "can", "will", "just", "don", "don\x27t",
   "should", "should\x27ve", "now", "d", "ll", "m", "o", "re", "ve", "y",
   "ain", "aren", "aren\x27t", "couldn", "couldn\x27t",
   "didn", "didn\x27t", "doesn", "doesn\x27t", "hadn", "hadn\x27t",
   "hasn", "hasn\x27t", "haven", "haven\x27t", "isn", "isn\x27t",
   "ma", "mightn", "mightn\x27t", "mustn", "mustn\x27t",
   "needn", "needn\x27t", "shan", "shan\x27t",
   "shouldn", "shouldn\x27t", "wasn", "wasn\x27t",
   "weren", "weren\x27t", "won", "won\x27t", "wouldn", "wouldn\x27t"]

/-- The explicit supplement united with the corpus in `SEOAnalyzer.__init__`. -/
def supplement_stopwords : List String :=
  ["the", "and", "is", "in", "to", "it", "that", "we", "for", "an", "are",
   "by", "be", "this", "with", "i", "you", "not", "or", "on", "your"]

/-- `self.stop_words = set(stopwords.words("english")).union({...})`;
represented as a list, with membership via `List.contains`. -/
def stop_words : List String := nltk_english_stopwords ++ supplement_stopwords

/-- A character the regex class `\w` keeps (ASCII fragment: letters,
digits, underscore). -/
def isWordChar (c : Char) : Bool := c.isAlphanum || c == '_'

/-- A character the regex class `\s` and `str.split()` treat as whitespace. -/
def isPySpace (c : Char) : Bool :=
  c == ' ' || c == '\t' || c == '\n' || c == '\x0d' || c == '\x0b' || c == '\x0c'

/-- `re.sub(r"[^\w\s]", " ", _)`: every character that is neither a word
character nor whitespace becomes a space. -/
def substPunct (cs : List Char) : List Char :=
  cs.map (fun c => if isWordChar c || isPySpace c then c else ' ')

/-- `str.split()` with no argument: split on runs of whitespace, never
producing empty tokens.  `acc` holds the characters of the current token
in reverse. -/
def pySplitAux : List Char → List Char → List (List Char)
  | [], acc => if acc.isEmpty then [] else [acc.reverse]
  | c :: rest, acc =>
    if isPySpace c then
      if acc.isEmpty then pySplitAux rest []
      else acc.reverse :: pySplitAux rest []
    else pySplitAux rest (c :: acc)

def pySplit (cs : List Char) : List (List Char) := pySplitAux cs []

/-- The `words` intermediate of `clean_text`: lowercase, replace
non-word-non-space characters by spaces, split on whitespace, and keep the
tokens that are nonempty, not stop words, and longer than two characters.
(`Char.toLower` agrees with `str.lower` on ASCII.) -/
def clean_text_words (text : String) : List String :=
  if text = "" then []
  else
    ((pySplit (substPunct (text.toList.map Char.toLower))).map String.mk).filter
      (fun w => !(w == "") && !(stop_words.contains w) && decide (2 < w.length))

/-- `SEOAnalyzer.clean_text`: the filtered words, each sent through the
Porter stemmer.  Empty input returns the empty list. -/
def clean_text (text : String) : List String :=
  (clean_text_words text).map Porter.stem

/-! ## Keyword extraction

`analyze_url` computes `word_freq = Counter(cleaned_words)` and
`keywords = [word for word, _ in word_freq.most_common(10)]`.  A `Counter`
iterates its keys in first-insertion order (first occurrence of each
distinct token), and `most_common(n)` is documented as equivalent to
`sorted(items, key=count, reverse=True)[:n]` with a stable sort. -/

/-- The distinct tokens of a list in order of first occurrence, by
structural recursion on a fuel argument (the list length always suffices:
each step filters the tail, which never lengthens it). -/
def firstUniqFuel : Nat → List String → List String
  | 0, _ => []
  | _, [] => []
  | fuel + 1, w :: ws => w :: firstUniqFuel fuel (ws.filter (fun x => !(x == w)))

/-- The distinct tokens of `ws` in order of first occurrence — the key
order of `Counter(ws)`. -/
def firstUniq (ws : List String) : List String := firstUniqFuel ws.length ws

/-- The items of `Counter(ws)`: each distinct token with its multiplicity,
in first-occurrence order. -/
def counterItems (ws : List String) : List (String × Nat) :=
  (firstUniq ws).map (fun w => (w, ws.count w))

/-- Stable insertion into a descending-count list: the inserted element
goes before the first strictly smaller count and also before equal counts
of elements that followed it in the original list order. -/
def insertDesc (x : String × Nat) : List (String × Nat) → List (String × Nat)
  | [] => [x]
  | y :: ys => if y.2 ≤ x.2 then x :: y :: ys else y :: insertDesc x ys

/-- Stable descending sort by count (the semantics of
`sorted(_, key=itemgetter(1), reverse=True)` used by `most_common`). -/
def sortDesc : List (String × Nat) → List (String × Nat)
  | [] => []
  | x :: xs => insertDesc x (sortDesc xs)

/-- `Counter(ws).most_common(n)`. -/
def most_common (n : Nat) (ws : List String) : List (String × Nat) :=
  (sortDesc (counterItems ws)).take n

/-- The keyword list of `analyze_url`:
`[word for word, _ in word_freq.most_common(10)]`. -/
def keywordsOf (ws : List String) : List String :=
  (most_common 10 ws).map Prod.fst

/-! ## Link classification (`SEOAnalyzer.analyze_links`)

`urllib.parse` is modelled on the scheme/netloc/path components; query and
fragment handling is omitted since the classifier only compares netlocs. -/

def isSchemeChar (c : Char) : Bool :=
  c.isAlphanum || c == '+' || c == '-' || c == '.'

/-- Split off the scheme of a URL, per `urlsplit`: the part before the
first colon counts as the scheme when it is nonempty, starts with a
letter, and contains only scheme characters; it is lowercased. -/
def schemeSplit (u : List Char) : Option (List Char) × List Char :=
  let pre := u.takeWhile (fun c => !(c == ':'))
  if pre.length < u.length && !pre.isEmpty
      && (pre.headD ' ').isAlpha && pre.all isSchemeChar then
    (some (pre.map Char.toLower), u.drop (pre.length + 1))
  else (none, u)

/-- Split the scheme-less remainder into netloc and path: a netloc is
present exactly when the remainder starts with `//`, and extends to the
next `/`, `?` or `#`. -/
def splitNetloc : List Char → List Char × List Char
  | '/' :: '/' :: r =>
    (r.takeWhile (fun c => !(['/', '?', '#'].contains c)),
     r.dropWhile (fun c => !(['/', '?', '#'].contains c)))
  | r => ([], r)

/-- `urlparse(u).netloc`. -/
def urlparse_netloc (u : String) : String :=
  String.mk (splitNetloc (schemeSplit u.toList).2).1

/-- `urlparse(u).scheme`, absent when the URL carries none. -/
def urlscheme (u : String) : Option String :=
  ((schemeSplit u.toList).1).map String.mk

/-- The path (and trailing components) after scheme and netloc. -/
def urlpath (u : String) : String :=
  String.mk (splitNetloc (schemeSplit u.toList).2).2

/-- `urllib.parse.uses_relative`. -/
def uses_relative : List String :=
  ["", "ftp", "http", "gopher", "nntp", "imap", "wais", "file", "https",
   "shttp", "mms", "prospero", "rtsp", "rtspu", "sftp", "svn", "svn+ssh",
   "ws", "wss"]

/-- `urllib.parse.uses_netloc`. -/
def uses_netloc : List String :=
  ["", "ftp", "http", "gopher", "nntp", "telnet", "imap", "wais", "file",
   "mms", "https", "shttp", "snews", "prospero", "rtsp", "rtspu", "rsync",
   "svn", "svn+ssh", "sftp", "nfs", "git", "git+ssh", "ws", "wss",
   "itms-services"]

/-- The characters of a path up to and including its last slash
(`bpath` with its final segment removed, for relative-reference merging). -/
def dropLastSegment (p : List Char) : List Char :=
  (p.reverse.dropWhile (fun c => !(c == '/'))).reverse

/-- Reassemble scheme, netloc and path per `urlunsplit` (a nonempty path
is given a leading slash when a netloc is present). -/
def unparse (scheme netloc path : String) : String :=
  let p := if !(path == "") && !(path.toList.headD ' ' == '/') then "/" ++ path
           else path
  scheme ++ "://" ++ netloc ++ p

/-- `urllib.parse.urljoin(base, url)` restricted to scheme, netloc and
path: a reference whose scheme differs from the base scheme (or falls
outside `uses_relative`) is returned unchanged; a reference with its own
netloc keeps it; otherwise the base netloc is adopted and the paths are
merged (dot-segment resolution is omitted — it cannot affect the netloc,
which is all `analyze_links` inspects). -/
def urljoin (base url : String) : String :=
  if base = "" then url
  else if url = "" then base
  else
    let bscheme := (urlscheme base).getD ""
    let uscheme := (urlscheme url).getD bscheme
    if !(uscheme == bscheme) || !(uses_relative.contains uscheme) then url
    else
      let unetloc := urlparse_netloc url
      if uses_netloc.contains uscheme && !(unetloc == "") then
        unparse uscheme unetloc (urlpath url)
      else
        let bnetloc := urlparse_netloc base
        let upath := urlpath url
        if upath = "" then unparse uscheme bnetloc (urlpath base)
        else if upath.toList.headD ' ' == '/' then unparse uscheme bnetloc upath
        else
          unparse uscheme bnetloc
            (String.mk (dropLastSegment (urlpath base).toList) ++ upath)

structure LinksDict where
  internalCount : Nat
  externalCount : Nat
  totalCount : Nat
deriving DecidableEq

/-- The classification loop of `analyze_links`: each href is resolved
against the base URL and appended (raw) to the internal list when the
resolved netloc equals the base netloc, else to the external list. -/
def classify_links (base_url : String) : List String → List String × List String
  | [] => ([], [])
  | href :: rest =>
    let p := classify_links base_url rest
    if urlparse_netloc (urljoin base_url href) == urlparse_netloc base_url then
      (href :: p.1, p.2)
    else (p.1, href :: p.2)

/-- `SEOAnalyzer.analyze_links` over the hrefs of the anchors that carry
one (`soup.find_all("a", href=True)`): the returned count dictionary. -/
def analyze_links (base_url : String) (hrefs : List String) : LinksDict :=
  let p := classify_links base_url hrefs
  { internalCount := p.1.length
    externalCount := p.2.length
    totalCount := p.1.length + p.2.length }

/-! ## Readability interpretation

Scores are modelled as rationals; both interpreters are pure threshold
functions of the numeric score. -/

/-- `SEOAnalyzer.get_readability_interpretation` (`src/seo_analyzer.py`),
the 3-bucket scale. -/
def get_readability_interpretation (readability_score : ℚ) : String :=
  if readability_score > 60 then "Good"
  else if readability_score > 40 then "Fair"
  else "Needs Improvement"

/-- `_interpret_readability` (`src/app.py`), the 5-bucket scale. -/
def interpret_readability (score : ℚ) : String :=
  if score > 80 then "Very Easy"
  else if score > 60 then "Easy"
  else if score > 40 then "Moderate"
  else if score > 20 then "Difficult"
  else "Very Difficult"

/-- `SEOAnalyzer.check_ssl`. -/
def check_ssl (url : String) : Bool :=
  "https://".toList.isPrefixOf url.toList

/-! ## The orchestrator (`SEOAnalyzer.analyze_url`)

Python exceptions are modelled with `Except`: the whole body of
`analyze_url` runs inside `try`, and the final `except Exception` clause
turns any raised error into the all-empty error dictionary.  The fetch
step (`fetch_url_content`, a `requests` call) is modelled by its outcome —
`none` for any transport failure, timeout or non-success status (the
function catches those and returns `None`), `some text` otherwise.  The
parsed document (BeautifulSoup) is a black box; each call the orchestrator
makes against it is modelled by its outcome, an `Except` value, so that an
extraction path that raises internally is represented by `.error`. -/

inductive PyErr where
  | nameError (n : String)
  | extractionError (msg : String)
deriving DecidableEq

/-- `str(e)` for the modelled exceptions; a `NameError` for `x` prints
`name 'x' is not defined`. -/
def PyErr.message : PyErr → String
  | .nameError n => "name \x27" ++ n ++ "\x27 is not defined"
  | .extractionError m => m

/-- The `analyze_content` result dictionary. -/
structure ContentDict where
  readabilityScore : ℚ
  wordCount : Nat
  readabilityInterpretation : String
  headingDistribution : List (String × Nat)
  contentTags : List (String × Nat)
deriving DecidableEq

/-- The `analyze_technical` result dictionary. -/
structure TechDict where
  title : Option String
  metaDescription : Option String
  canonical : Option String
  mobileFriendly : Bool
  ssl : Bool
  structuredData : Bool
deriving DecidableEq

/-- The `performance` sub-dictionary of the success result. -/
structure PerfDict where
  totalResources : Nat
  totalSize : Nat
deriving DecidableEq

/-- The dictionary `analyze_url` returns.  `none` on a section models the
empty dictionary `{}` of the error shape; `metadata` is kept as a
key-value list so that a result can omit the metadata fields. -/
structure AnalyzeDict where
  error : Option String
  url : Option String
  keywords : List String
  content : Option ContentDict
  technical : Option TechDict
  links : Option LinksDict
  performance : Option PerfDict
  metadata : List (String × String)
deriving DecidableEq

/-- The error dictionary built in both `except` paths of `analyze_url`:
an error message and every section empty (`'metadata': {}` included). -/
def errorDict (msg : String) : AnalyzeDict :=
  { error := some msg, url := none, keywords := [], content := none,
    technical := none, links := none, performance := none, metadata := [] }

deriving instance DecidableEq for Except

/-- The outcomes of the calls `analyze_url` makes against the parsed
document: full-text extraction, the three sub-analyzers, and the resource
count of the `performance` entry
(`len(soup.find_all('script')) + len(soup.find_all('link')) + len(soup.find_all('img'))`). -/
structure Soup where
  getText : Except PyErr String
  analyzeContent : Except PyErr ContentDict
  analyzeTechnical : Except PyErr TechDict
  analyzeLinks : Except PyErr LinksDict
  totalResources : Except PyErr Nat
deriving DecidableEq

/-- The names bound at module level of `src/seo_analyzer.py` by its import
statements (lines 1-11).  `time` is not among them. -/
def moduleImports : List String :=
  ["os", "re", "requests", "BeautifulSoup", "Counter", "defaultdict",
   "datetime", "flesch_reading_ease", "urljoin", "urlparse", "nltk",
   "stopwords", "PorterStemmer"]

/-- Evaluation of the `metadata` entry of the success dictionary.  The
expression `time.time() - time.time()` looks up the name `time`; with
`time` unbound this raises `NameError` before the dictionary is built.
When `time` is bound the entry holds the elapsed difference (about zero)
and `datetime.now().isoformat()`, the latter supplied as `now`. -/
def metadataStep (imports : List String) (now : String) :
    Except PyErr (List (String × String)) :=
  if imports.contains "time" then
    Except.ok [("analysisDuration", "0"), ("analyzedAt", now)]
  else Except.error (PyErr.nameError "time")

/-- The `try` body of `analyze_url`: the insufficient-content check, then
text extraction, keyword counting, the three analyzers and the resource
count (in the evaluation order of the result literal), then the metadata
entry.  Any raised exception surfaces as `.error`. -/
def analyzeBody (imports : List String) (url now : String)
    (fetched : Option String) (soup : Soup) : Except PyErr AnalyzeDict :=
  match fetched with
  | none => .ok (errorDict "Insufficient content")
  | some content =>
    if content.length < 100 then .ok (errorDict "Insufficient content")
    else
      match soup.getText with
      | .error e => .error e
      | .ok text =>
        let cleaned_words := clean_text text
        let kws := keywordsOf cleaned_words
        match soup.analyzeContent with
        | .error e => .error e
        | .ok contentD =>
          match soup.analyzeTechnical with
          | .error e => .error e
          | .ok technicalD =>
            match soup.analyzeLinks with
            | .error e => .error e
            | .ok linksD =>
              match soup.totalResources with
              | .error e => .error e
              | .ok resources =>
                match metadataStep imports now with
                | .error e => .error e
                | .ok metadata =>
                  .ok { error := none, url := some url, keywords := kws,
                        content := some contentD, technical := some technicalD,
                        links := some linksD,
                        performance := some { totalResources := resources,
                                              totalSize := content.length },
                        metadata := metadata }

/-- `SEOAnalyzer.analyze_url` (with `report_file=None`): the `try` body,
with the outer `except Exception` clause converting any raised exception
into the generic error dictionary carrying `str(e)`. -/
def analyze_url (imports : List String) (url now : String)
    (fetched : Option String) (soup : Soup) : AnalyzeDict :=
  match analyzeBody imports url now fetched soup with
  | .ok d => d
  | .error e => errorDict e.message

/-! ## Concrete fixtures for witnesses and counterexamples -/

/-- A plausible `analyze_content` outcome. -/
def contentDict0 : ContentDict :=
  { readabilityScore := 50, wordCount := 4, readabilityInterpretation := "Fair",
    headingDistribution := [("h1", 1), ("h2", 0)], contentTags := [("strong", 2)] }

/-- A plausible `analyze_technical` outcome. -/
def techDict0 : TechDict :=
  { title := some "Example", metaDescription := none, canonical := none,
    mobileFriendly := true, ssl := true, structuredData := false }

/-- A plausible `analyze_links` outcome. -/
def linksDict0 : LinksDict := { internalCount := 1, externalCount := 2, totalCount := 3 }

/-- A parsed document on which every extraction call succeeds. -/
def soupOk : Soup :=
  { getText := .ok "some page text here", analyzeContent := .ok contentDict0,
    analyzeTechnical := .ok techDict0, analyzeLinks := .ok linksDict0,
    totalResources := .ok 5 }

/-- A parsed document on which exactly one extraction path — the link
analyzer — raises, while the other three succeed. -/
def soupLinksFail : Soup :=
  { getText := .ok "some page text here", analyzeContent := .ok contentDict0,
    analyzeTechnical := .ok techDict0,
    analyzeLinks := .error (PyErr.extractionError "boom"),
    totalResources := .ok 5 }

/-- A fetched body of exactly 100 characters. -/
def content100 : String := String.mk (List.replicate 100 'a')

/-- A fetched body of exactly 50 characters. -/
def content50 : String := String.mk (List.replicate 50 'b')

/-! ## Helpers for re-normalization (claim about idempotence) -/

/-- Join a token sequence back into a text with single spaces, to feed a
token sequence to the text-valued normalizer. -/
def joinTokens : List String → String
  | [] => ""
  | [w] => w
  | w :: ws => w ++ " " ++ joinTokens ws

/-- The same join at the character level. -/
def joinChars : List (List Char) → List Char
  | [] => []
  | [w] => w
  | w :: ws => w ++ ' ' :: joinChars ws

/-- A token in fully normalized form: nonempty, made of lowercase word
characters, longer than two characters, outside the stop-word set, and a
fixed point of the Porter stemmer. -/
def normalizedToken (w : String) : Prop :=
  w ≠ "" ∧ (∀ c ∈ w.toList, isWordChar c = true ∧ Char.toLower c = c) ∧
  2 < w.length ∧ stop_words.contains w = false ∧ Porter.stem w = w

/-! ## Orchestrator theorems -/

/-- Under the actual module imports every call of `analyze_url` resolves
to the all-empty error dictionary: each failure path raises (or
short-circuits) and the final metadata step raises `NameError` because
`time` is unbound. -/
theorem analyze_url_error_shaped (url now : String) (fetched : Option String)
    (soup : Soup) :
    ∃ msg, analyze_url moduleImports url now fetched soup = errorDict msg := by
  cases fetched with
  | none => exact ⟨"Insufficient content", rfl⟩
  | some content =>
    simp only [analyze_url, analyzeBody]
    by_cases h : content.length < 100
    · rw [if_pos h]
      exact ⟨"Insufficient content", rfl⟩
    · rw [if_neg h]
      rcases hg : soup.getText with e | text
      · exact ⟨e.message, rfl⟩
      rcases hc : soup.analyzeContent with e | c
      · exact ⟨e.message, rfl⟩
      rcases ht : soup.analyzeTechnical with e | t
      · exact ⟨e.message, rfl⟩
      rcases hl : soup.analyzeLinks with e | l
      · exact ⟨e.message, rfl⟩
      rcases hr : soup.totalResources with e | r
      · exact ⟨e.message, rfl⟩
      exact ⟨(PyErr.nameError "time").message, rfl⟩

/-- C1: for every fetch that returns content of at least 100 characters,
`analyze_url` returns the error-shaped dictionary (an error key with all
sections empty), never the success-shaped result: `time` is not among the
module imports, so the metadata assembly raises `NameError`, which the
outer handler converts to the generic error dictionary; in particular
when every extraction call succeeds the surfaced message is exactly the
`NameError` text for `time`. -/
theorem C1_success_unreachable (url now content : String) (soup : Soup)
    (h : 100 ≤ content.length) :
    "time" ∉ moduleImports ∧
    (∃ msg, analyze_url moduleImports url now (some content) soup = errorDict msg) ∧
    (∀ (text : String) (c : ContentDict) (t : TechDict) (l : LinksDict) (r : Nat),
      soup.getText = .ok text → soup.analyzeContent = .ok c →
      soup.analyzeTechnical = .ok t → soup.analyzeLinks = .ok l →
      soup.totalResources = .ok r →
      analyze_url moduleImports url now (some content) soup
        = errorDict "name \x27time\x27 is not defined") := by
  refine ⟨by decide, analyze_url_error_shaped url now (some content) soup, ?_⟩
  intro text c t l r hg hc ht hl hr
  simp only [analyze_url, analyzeBody]
  rw [if_neg (Nat.not_lt.mpr h), hg, hc, ht, hl, hr]
  rfl

/-- C1 witness: a concrete 100-character body and a document on which all
extraction calls succeed still produce the `NameError` error dictionary. -/
theorem C1_success_unreachable_witness :
    analyze_url moduleImports "https://example.com" "t0" (some content100) soupOk
      = errorDict "name \x27time\x27 is not defined" :=
  (C1_success_unreachable "https://example.com" "t0" content100 soupOk
    (by decide)).2.2 "some page text here" contentDict0 techDict0 linksDict0 5
    rfl rfl rfl rfl rfl

/-- C9: every fetched body shorter than 100 characters yields the result
whose error field is exactly `Insufficient content` and whose keyword,
content, technical and link sections are all empty. -/
theorem C9_insufficient_content (url now content : String) (soup : Soup)
    (h : content.length < 100) :
    analyze_url moduleImports url now (some content) soup
      = errorDict "Insufficient content" ∧
    (errorDict "Insufficient content").error = some "Insufficient content" ∧
    (errorDict "Insufficient content").keywords = [] ∧
    (errorDict "Insufficient content").content = none ∧
    (errorDict "Insufficient content").technical = none ∧
    (errorDict "Insufficient content").links = none := by
  refine ⟨?_, rfl, rfl, rfl, rfl, rfl⟩
  simp only [analyze_url, analyzeBody]
  rw [if_pos h]

/-- C9 witness: a 50-character body produces the insufficient-content
error result. -/
theorem C9_insufficient_content_witness :
    analyze_url moduleImports "https://example.com" "t0" (some content50) soupOk
      = errorDict "Insufficient content" :=
  (C9_insufficient_content "https://example.com" "t0" content50 soupOk (by decide)).1

/-- C2 counterexample: when the fetch fails (`fetch_url_content` returns
`None`), the returned reason is `Insufficient content`, not the distinct
`fetch error` reason the claim requires. -/
theorem C2_counterexample :
    (analyze_url moduleImports "https://down.example" "t0" none soupOk).error
      = some "Insufficient content" ∧
    ¬ (analyze_url moduleImports "https://down.example" "t0" none soupOk).error
      = some "fetch error" := by
  exact ⟨rfl, by decide⟩

/-- C2 amended: a fetch failure produces exactly the same
`Insufficient content` error result as a loaded-but-short body; the code
does not distinguish the two failure modes with a `fetch error` reason. -/
theorem C2_fetch_failure_not_distinguished (url now short : String) (soup : Soup)
    (h : short.length < 100) :
    analyze_url moduleImports url now none soup = errorDict "Insufficient content" ∧
    analyze_url moduleImports url now none soup
      = analyze_url moduleImports url now (some short) soup := by
  have h2 : analyze_url moduleImports url now (some short) soup
      = errorDict "Insufficient content" := by
    simp only [analyze_url, analyzeBody]
    rw [if_pos h]
  refine ⟨rfl, ?_⟩
  rw [h2]
  rfl

/-- C2 witness: concrete fetch failure versus a concrete 50-character
body give the same error dictionary. -/
theorem C2_fetch_failure_not_distinguished_witness :
    analyze_url moduleImports "https://a.example" "t0" none soupOk
      = errorDict "Insufficient content" ∧
    analyze_url moduleImports "https://a.example" "t0" none soupOk
      = analyze_url moduleImports "https://a.example" "t0" (some content50) soupOk :=
  C2_fetch_failure_not_distinguished "https://a.example" "t0" content50 soupOk (by decide)

/-- C3 counterexample: a call with a 100-character body returns a result
whose metadata block is the empty dictionary — it omits the
`analysisDuration` and `analyzedAt` fields the claim requires. -/
theorem C3_counterexample :
    ((analyze_url moduleImports "https://example.com" "t0" (some content100)
        soupOk).error).isSome = true ∧
    (analyze_url moduleImports "https://example.com" "t0" (some content100)
        soupOk).metadata = [] := by
  decide

/-- C3 amended: `analyze_url` never propagates an exception — every call
returns a dictionary carrying an error marker — but the metadata block of
these results is empty rather than holding a zero duration and a call
timestamp (the HTTP layer adds those fields in its own error responses). -/
theorem C3_error_marker_empty_metadata (url now : String)
    (fetched : Option String) (soup : Soup) :
    ((analyze_url moduleImports url now fetched soup).error).isSome = true ∧
    (analyze_url moduleImports url now fetched soup).metadata = [] := by
  obtain ⟨msg, hm⟩ := analyze_url_error_shaped url now fetched soup
  rw [hm]
  exact ⟨rfl, rfl⟩

/-- C4 counterexample: with a 100-character body and a document on which
exactly one extraction path (the link analyzer) raises while the other
three succeed, the whole analysis aborts to the all-empty error
dictionary — the successfully computed content and technical results are
discarded, not preserved. -/
theorem C4_counterexample :
    analyze_url moduleImports "https://example.com" "t0" (some content100)
        soupLinksFail = errorDict "boom" ∧
    (analyze_url moduleImports "https://example.com" "t0" (some content100)
        soupLinksFail).content = none ∧
    (analyze_url moduleImports "https://example.com" "t0" (some content100)
        soupLinksFail).technical = none := by
  decide

/-- C4 amended: an exception in one extraction path is not caught at a
sub-step boundary: it propagates to the outermost handler of
`analyze_url`, which returns the fully-empty error dictionary carrying
that exception message; the other categories are discarded. -/
theorem C4_extraction_failure_aborts (url now content text : String)
    (c : ContentDict) (t : TechDict) (e : PyErr) (soup : Soup)
    (h : 100 ≤ content.length)
    (hg : soup.getText = .ok text) (hc : soup.analyzeContent = .ok c)
    (ht : soup.analyzeTechnical = .ok t) (hl : soup.analyzeLinks = .error e) :
    analyze_url moduleImports url now (some content) soup = errorDict e.message := by
  simp only [analyze_url, analyzeBody]
  rw [if_neg (Nat.not_lt.mpr h), hg, hc, ht, hl]

/-- C4 witness: the amended behaviour at the concrete failing document. -/
theorem C4_extraction_failure_aborts_witness :
    analyze_url moduleImports "https://example.com" "t0" (some content100)
      soupLinksFail = errorDict (PyErr.extractionError "boom").message :=
  C4_extraction_failure_aborts "https://example.com" "t0" content100
    "some page text here" contentDict0 techDict0 (PyErr.extractionError "boom")
    soupLinksFail (by decide) rfl rfl rfl rfl

/-! ## Readability theorems -/

/-- C10: readability interpretation is a pure threshold function of the
numeric score with exclusive boundaries in both variants: on the 5-bucket
scale 81 maps to Very Easy and exactly 60 maps to Moderate, with the
bucket characterization strict at every boundary; on the 3-bucket scale
strictly above 60 is Good, strictly above 40 is Fair, and everything else
Needs Improvement. -/
theorem C10_readability_buckets :
    interpret_readability 81 = "Very Easy" ∧
    interpret_readability 60 = "Moderate" ∧
    ∀ s : ℚ,
      (80 < s → interpret_readability s = "Very Easy") ∧
      (60 < s ∧ s ≤ 80 → interpret_readability s = "Easy") ∧
      (40 < s ∧ s ≤ 60 → interpret_readability s = "Moderate") ∧
      (20 < s ∧ s ≤ 40 → interpret_readability s = "Difficult") ∧
      (s ≤ 20 → interpret_readability s = "Very Difficult") ∧
      (60 < s → get_readability_interpretation s = "Good") ∧
      (40 < s ∧ s ≤ 60 → get_readability_interpretation s = "Fair") ∧
      (s ≤ 40 → get_readability_interpretation s = "Needs Improvement") := by
  refine ⟨by norm_num [interpret_readability], by norm_num [interpret_readability],
    fun s => ?_⟩
  unfold interpret_readability get_readability_interpretation
  refine ⟨fun h => ?_, fun h => ?_, fun h => ?_, fun h => ?_, fun h => ?_,
    fun h => ?_, fun h => ?_, fun h => ?_⟩ <;>
    first
      | (obtain ⟨h1, h2⟩ := h
         split_ifs <;> first | rfl | linarith)
      | (split_ifs <;> first | rfl | linarith)

/-- C10 witness: the 5-bucket interpreter at the concrete score 50. -/
theorem C10_readability_buckets_witness :
    interpret_readability 50 = "Moderate" :=
  (C10_readability_buckets.2.2 50).2.2.1 (by norm_num)

/-! ## Link-classification theorems -/

/-- C8: for base URL https://example.com/page and the four hrefs of the
claim, the classifier puts the site-relative and same-host absolute hrefs
in the internal list and the foreign-host and mailto hrefs in the external
list (the mailto reference resolves to a netloc distinct from the base
host), with a total count of 4; and in general a href is classified
internal exactly when the netloc of its resolution against the base URL
equals the base netloc, by exact string comparison. -/
theorem C8_link_classification :
    classify_links "https://example.com/page"
      ["/about", "https://example.com/contact", "https://other.com/x",
       "mailto:a@b.com"]
      = (["/about", "https://example.com/contact"],
         ["https://other.com/x", "mailto:a@b.com"]) ∧
    (analyze_links "https://example.com/page"
      ["/about", "https://example.com/contact", "https://other.com/x",
       "mailto:a@b.com"]).totalCount = 4 ∧
    urlparse_netloc (urljoin "https://example.com/page" "mailto:a@b.com")
      ≠ urlparse_netloc "https://example.com/page" ∧
    ∀ (base : String) (hrefs : List String),
      classify_links base hrefs
        = (hrefs.filter
            (fun h => urlparse_netloc (urljoin base h) == urlparse_netloc base),
           hrefs.filter
            (fun h => !(urlparse_netloc (urljoin base h) == urlparse_netloc base))) := by
  refine ⟨by decide, by decide, by decide, fun base hrefs => ?_⟩
  induction hrefs with
  | nil => rfl
  | cons a t ih =>
    simp only [classify_links, ih, List.filter_cons]
    by_cases hc : urlparse_netloc (urljoin base a) == urlparse_netloc base
    · simp [hc]
    · simp [hc]

/-! ## Normalizer theorems -/

/-- C5 counterexample: the input `ies` passes the pre-stemming filters
(length 3, not a stop word) but the Porter stemmer maps it to `i`, so the
final output of the normalizer contains a token shorter than 3 characters
that moreover lies in the stop-word set. -/
theorem C5_counterexample :
    clean_text "ies" = ["i"] ∧ ("i" : String).length < 3 ∧
    stop_words.contains "i" = true := by
  decide

/-- C5 amended: the length and stop-word guarantees hold of the filtered
pre-stemming token sequence — every such token is longer than two
characters and outside the stop-word set — and the final output is that
sequence mapped through the Porter stemmer, which can shorten tokens below
three characters or map them into the stop-word set. -/
theorem C5_prestem_filter (text : String) :
    (∀ w ∈ clean_text_words text, 2 < w.length ∧ stop_words.contains w = false) ∧
    clean_text text = (clean_text_words text).map Porter.stem := by
  refine ⟨?_, rfl⟩
  intro w hw
  unfold clean_text_words at hw
  split at hw
  · simp at hw
  · obtain ⟨-, hcond⟩ := List.mem_filter.mp hw
    obtain ⟨h1, h2⟩ := Bool.and_eq_true_iff.mp hcond
    obtain ⟨-, hstop⟩ := Bool.and_eq_true_iff.mp h1
    exact ⟨of_decide_eq_true h2, Bool.not_eq_true' .. |>.mp hstop⟩

/-- C5 witness: the amended statement evaluated at a concrete text and
token. -/
theorem C5_prestem_filter_witness :
    2 < ("big" : String).length ∧ stop_words.contains "big" = false :=
  (C5_prestem_filter "big words run").1 "big" (by decide)

/-- C6 counterexample: normalizer output is not always re-normalizable to
itself: `clean_text "ies" = ["i"]`, and running the normalizer over that
one-token sequence drops the token (length 1, a stop word), giving `[]`. -/
theorem C6_counterexample :
    clean_text (joinTokens (clean_text "ies")) ≠ clean_text "ies" := by
  decide

lemma string_toList_ne_nil {w : String} (h : w ≠ "") : w.toList ≠ [] := by
  intro hc
  apply h
  have h2 : String.mk w.toList = String.mk [] := by rw [hc]
  exact h2

lemma string_ne_empty_of_toList {w : String} (h : w.toList ≠ []) : w ≠ "" := by
  intro hc
  exact h (by rw [hc]; rfl)

lemma isPySpace_eq_false_of_isWordChar {c : Char} (h : isWordChar c = true) :
    isPySpace c = false := by
  by_contra hne
  rw [Bool.not_eq_false] at hne
  simp only [isPySpace, Bool.or_eq_true, beq_iff_eq] at hne
  have hcv : c = ' ' ∨ c = '\t' ∨ c = '\n' ∨ c = '\x0d' ∨ c = '\x0b' ∨ c = '\x0c' := by
    tauto
  rcases hcv with h1 | h1 | h1 | h1 | h1 | h1 <;> subst h1 <;>
    exact absurd h (by decide)

lemma joinTokens_toList :
    ∀ ts : List String, (joinTokens ts).toList = joinChars (ts.map String.toList)
  | [] => rfl
  | [w] => rfl
  | w :: v :: ws => by
    show ((w ++ " ") ++ joinTokens (v :: ws)).toList
      = w.toList ++ ' ' :: joinChars ((v :: ws).map String.toList)
    rw [← joinTokens_toList (v :: ws)]
    have h2 : ((w ++ " ") ++ joinTokens (v :: ws)).toList
        = (w.toList ++ [' ']) ++ (joinTokens (v :: ws)).toList := rfl
    rw [h2, List.append_assoc]
    rfl

lemma mem_joinChars :
    ∀ (ls : List (List Char)) (c : Char), c ∈ joinChars ls →
      (∃ w ∈ ls, c ∈ w) ∨ c = ' '
  | [], c, hc => absurd hc (List.not_mem_nil c)
  | [w], c, hc => Or.inl ⟨w, by simp, hc⟩
  | w :: v :: ws, c, hc => by
    rcases List.mem_append.mp hc with h | h
    · exact Or.inl ⟨w, by simp, h⟩
    · rcases List.mem_cons.mp h with h | h
      · exact Or.inr h
      · rcases mem_joinChars (v :: ws) c h with ⟨u, hu, hcu⟩ | h
        · exact Or.inl ⟨u, List.mem_cons_of_mem w hu, hcu⟩
        · exact Or.inr h

lemma map_toLower_id (cs : List Char) (h : ∀ c ∈ cs, Char.toLower c = c) :
    cs.map Char.toLower = cs := by
  rw [List.map_congr_left h]
  simp

lemma substPunct_id (cs : List Char) (h : ∀ c ∈ cs, isWordChar c = true ∨ c = ' ') :
    substPunct cs = cs := by
  unfold substPunct
  have h2 : ∀ c ∈ cs, (if isWordChar c || isPySpace c then c else ' ') = id c := by
    intro c hc
    rcases h c hc with hw | hs
    · simp [hw]
    · subst hs
      simp [isPySpace]
  rw [List.map_congr_left h2]
  simp

lemma pySplitAux_nospace :
    ∀ (w rest acc : List Char), (∀ c ∈ w, isPySpace c = false) →
      pySplitAux (w ++ rest) acc = pySplitAux rest (w.reverse ++ acc) := by
  intro w
  induction w with
  | nil => intro rest acc _; simp
  | cons c w ih =>
    intro rest acc h
    have hc : isPySpace c = false := h c (List.mem_cons_self c w)
    show pySplitAux (c :: (w ++ rest)) acc = _
    rw [pySplitAux, hc]
    simp only [Bool.false_eq_true, if_false]
    rw [ih rest (c :: acc) (fun d hd => h d (List.mem_cons_of_mem c hd))]
    rw [List.reverse_cons, List.append_assoc]
    rfl

lemma pySplit_joinChars :
    ∀ ls : List (List Char),
      (∀ w ∈ ls, w ≠ [] ∧ ∀ c ∈ w, isPySpace c = false) →
      pySplit (joinChars ls) = ls := by
  intro ls
  induction ls with
  | nil => intro _; rfl
  | cons a ls ih =>
    intro h
    obtain ⟨ha, hnospace⟩ := h a (List.mem_cons_self a ls)
    rcases ls with - | ⟨b, ls2⟩
    · show pySplit a = [a]
      unfold pySplit
      have h0 := pySplitAux_nospace a [] [] hnospace
      rw [List.append_nil] at h0
      rw [h0, pySplitAux, List.append_nil]
      have hrev : a.reverse.isEmpty = false :=
        List.isEmpty_eq_false.mpr (by simpa using ha)
      rw [hrev]
      simp
    · show pySplit (a ++ ' ' :: joinChars (b :: ls2)) = a :: b :: ls2
      unfold pySplit
      rw [pySplitAux_nospace a (' ' :: joinChars (b :: ls2)) [] hnospace]
      rw [List.append_nil, pySplitAux]
      have hsp : isPySpace ' ' = true := by decide
      rw [hsp]
      have hrev : a.reverse.isEmpty = false :=
        List.isEmpty_eq_false.mpr (by simpa using ha)
      rw [hrev]
      have hih := ih (fun u hu => h u (List.mem_cons_of_mem a hu))
      unfold pySplit at hih
      simp [hih]

lemma map_mk_toList (ls : List String) : (ls.map String.toList).map String.mk = ls := by
  rw [List.map_map]
  have : ∀ w ∈ ls, (String.mk ∘ String.toList) w = id w := fun w _ => rfl
  rw [List.map_congr_left this, List.map_id]

/-- C6 amended: re-normalization is the identity on token sequences whose
tokens are in fully normalized form — nonempty strings of lowercase word
characters, longer than two characters, outside the stop-word set, and
fixed points of the Porter stemmer.  (Not every normalizer output is of
this form: stemming can emit short or stop-word tokens, which a second
pass drops.) -/
theorem C6_renormalize_fixed (ts : List String)
    (h : ∀ w ∈ ts, normalizedToken w) :
    clean_text (joinTokens ts) = ts := by
  rcases hts : ts with - | ⟨w, ws⟩
  · rfl
  · subst hts
    have hchars : ∀ c ∈ joinChars ((w :: ws).map String.toList),
        (isWordChar c = true ∨ c = ' ') ∧ Char.toLower c = c := by
      intro c hc
      rcases mem_joinChars _ c hc with ⟨u, hu, hcu⟩ | hsp
      · obtain ⟨v, hv, huv⟩ := List.mem_map.mp hu
        obtain ⟨-, hcw, -, -, -⟩ := h v hv
        have := hcw c (huv ▸ hcu)
        exact ⟨Or.inl this.1, this.2⟩
      · subst hsp
        exact ⟨Or.inr rfl, rfl⟩
    have hne : joinTokens (w :: ws) ≠ "" := by
      apply string_ne_empty_of_toList
      rw [joinTokens_toList]
      obtain ⟨hw1, -, -, -, -⟩ := h w (List.mem_cons_self w ws)
      rcases ws with - | ⟨v, ws2⟩
      · exact string_toList_ne_nil hw1
      · show w.toList ++ ' ' :: joinChars ((v :: ws2).map String.toList) ≠ []
        simp
    unfold clean_text clean_text_words
    rw [if_neg hne, joinTokens_toList]
    rw [map_toLower_id _ (fun c hc => (hchars c hc).2)]
    rw [substPunct_id _ (fun c hc => (hchars c hc).1)]
    rw [pySplit_joinChars]
    · rw [map_mk_toList]
      have hpred : ∀ u ∈ w :: ws,
          (!(u == "") && !(stop_words.contains u) && decide (2 < u.length)) = true := by
        intro u hu
        obtain ⟨hu1, -, hu3, hu4, -⟩ := h u hu
        have hu5 : u ∉ stop_words := by simpa using hu4
        simp [hu1, hu3, hu5]
      rw [List.filter_eq_self.mpr hpred]
      have hstem : ∀ u ∈ w :: ws, Porter.stem u = id u := by
        intro u hu
        obtain ⟨-, -, -, -, hu5⟩ := h u hu
        exact hu5
      rw [List.map_congr_left hstem, List.map_id]
    · intro u hu
      obtain ⟨v, hv, huv⟩ := List.mem_map.mp hu
      obtain ⟨hv1, hvchars, -, -, -⟩ := h v hv
      subst huv
      refine ⟨string_toList_ne_nil hv1, fun c hc => ?_⟩
      exact isPySpace_eq_false_of_isWordChar (hvchars c hc).1

/-- C6 witness: the amended statement at a concrete normalized sequence. -/
theorem C6_renormalize_fixed_witness :
    clean_text (joinTokens ["run", "fast"]) = ["run", "fast"] :=
  C6_renormalize_fixed ["run", "fast"] (by
    intro u hu
    rcases List.mem_cons.mp hu with rfl | hu
    · exact ⟨by decide, by decide, by decide, by decide, by decide⟩
    rcases List.mem_cons.mp hu with rfl | hu
    · exact ⟨by decide, by decide, by decide, by decide, by decide⟩
    · exact absurd hu (List.not_mem_nil u))

/-! ## Keyword-extractor theorems -/

lemma insertDesc_perm (x : String × Nat) :
    ∀ l : List (String × Nat), List.Perm (insertDesc x l) (x :: l)
  | [] => List.Perm.refl _
  | y :: ys => by
    unfold insertDesc
    by_cases hc : y.2 ≤ x.2
    · rw [if_pos hc]
    · rw [if_neg hc]
      exact ((insertDesc_perm x ys).cons y).trans (List.Perm.swap x y ys)

lemma sortDesc_perm : ∀ l : List (String × Nat), List.Perm (sortDesc l) l
  | [] => List.Perm.refl _
  | x :: xs => (insertDesc_perm x (sortDesc xs)).trans ((sortDesc_perm xs).cons x)

lemma insertDesc_pairwise (Q : (String × Nat) → (String × Nat) → Prop)
    (x : String × Nat) :
    ∀ l : List (String × Nat),
      l.Pairwise (fun a b => b.2 ≤ a.2 ∧ (a.2 ≤ b.2 → Q a b)) →
      (∀ y ∈ l, Q x y) →
      (insertDesc x l).Pairwise (fun a b => b.2 ≤ a.2 ∧ (a.2 ≤ b.2 → Q a b))
  | [], _, _ => List.pairwise_singleton _ x
  | y :: ys, hl, hx => by
    unfold insertDesc
    by_cases hc : y.2 ≤ x.2
    · rw [if_pos hc]
      refine List.Pairwise.cons ?_ hl
      intro z hz
      rcases List.mem_cons.mp hz with rfl | hz2
      · exact ⟨hc, fun _ => hx z (List.mem_cons_self z ys)⟩
      · have hyz := (List.pairwise_cons.mp hl).1 z hz2
        exact ⟨le_trans hyz.1 hc, fun _ => hx z (List.mem_cons_of_mem y hz2)⟩
    · rw [if_neg hc]
      push_neg at hc
      refine List.Pairwise.cons ?_
        (insertDesc_pairwise Q x ys (List.pairwise_cons.mp hl).2
          (fun z hz => hx z (List.mem_cons_of_mem y hz)))
      intro z hz
      have hz2 := (insertDesc_perm x ys).mem_iff.mp hz
      rcases List.mem_cons.mp hz2 with rfl | hz3
      · exact ⟨le_of_lt hc, fun h2 => absurd h2 (not_le.mpr hc)⟩
      · exact (List.pairwise_cons.mp hl).1 z hz3

lemma sortDesc_pairwise (Q : (String × Nat) → (String × Nat) → Prop) :
    ∀ l : List (String × Nat), l.Pairwise Q →
      (sortDesc l).Pairwise (fun a b => b.2 ≤ a.2 ∧ (a.2 ≤ b.2 → Q a b))
  | [], _ => List.Pairwise.nil
  | x :: xs, hl => by
    have hx : ∀ y ∈ sortDesc xs, Q x y := fun y hy =>
      (List.pairwise_cons.mp hl).1 y ((sortDesc_perm xs).mem_iff.mp hy)
    exact insertDesc_pairwise Q x (sortDesc xs)
      (sortDesc_pairwise Q xs (List.pairwise_cons.mp hl).2) hx

lemma firstUniqFuel_subset :
    ∀ (fuel : Nat) (l : List String), ∀ x ∈ firstUniqFuel fuel l, x ∈ l
  | 0, l => by cases l <;> simp [firstUniqFuel]
  | _ + 1, [] => by simp [firstUniqFuel]
  | fuel + 1, w :: t => by
    intro x hx
    simp only [firstUniqFuel] at hx
    rcases List.mem_cons.mp hx with rfl | hx2
    · exact List.mem_cons_self x t
    · have h2 := firstUniqFuel_subset fuel _ x hx2
      exact List.mem_cons_of_mem w (List.mem_of_mem_filter h2)

lemma mem_firstUniqFuel :
    ∀ (fuel : Nat) (l : List String), l.length ≤ fuel →
      ∀ x ∈ l, x ∈ firstUniqFuel fuel l
  | 0, l, h => by
    cases l with
    | nil => simp
    | cons a t => simp at h
  | _ + 1, [], _ => by simp
  | fuel + 1, w :: t, h => by
    intro x hx
    simp only [firstUniqFuel]
    by_cases hxw : x = w
    · exact hxw ▸ List.mem_cons_self x _
    · rcases List.mem_cons.mp hx with rfl | hx2
      · exact List.mem_cons_self x _
      · refine List.mem_cons_of_mem w ?_
        have hlen : (t.filter (fun y => !(y == w))).length ≤ fuel :=
          le_trans (List.length_filter_le _ _) (Nat.succ_le_succ_iff.mp (by simpa using h))
        refine mem_firstUniqFuel fuel _ hlen x ?_
        exact List.mem_filter.mpr ⟨hx2, by simp [hxw]⟩

lemma firstUniqFuel_nodup :
    ∀ (fuel : Nat) (l : List String), (firstUniqFuel fuel l).Nodup
  | 0, l => by cases l <;> simp [firstUniqFuel]
  | _ + 1, [] => by simp [firstUniqFuel]
  | fuel + 1, w :: t => by
    simp only [firstUniqFuel]
    refine List.Nodup.cons ?_ (firstUniqFuel_nodup fuel _)
    intro hw
    have h2 := firstUniqFuel_subset fuel _ w hw
    have h3 := (List.mem_filter.mp h2).2
    simp at h3

lemma indexOf_lt_of_filter (p : String → Bool) :
    ∀ (t : List String) (a b : String), a ∈ t.filter p → b ∈ t.filter p →
      (t.filter p).indexOf a < (t.filter p).indexOf b →
      t.indexOf a < t.indexOf b
  | [], a, b, ha, _, _ => by simp at ha
  | c :: t, a, b, ha, hb, hlt => by
    by_cases hpc : p c
    · rw [List.filter_cons_of_pos hpc] at ha hb hlt
      by_cases hac : a = c
      · subst hac
        have hba : b ≠ a := by
          intro hba
          subst hba
          exact lt_irrefl _ hlt
        rw [List.indexOf_cons_self, List.indexOf_cons_ne t (Ne.symm hba)]
        exact Nat.succ_pos _
      · by_cases hbc : b = c
        · subst hbc
          rw [List.indexOf_cons_self, List.indexOf_cons_ne _ (Ne.symm hac)] at hlt
          exact absurd hlt (Nat.not_lt_zero _)
        · have ha2 := List.mem_of_ne_of_mem hac ha
          have hb2 := List.mem_of_ne_of_mem hbc hb
          rw [List.indexOf_cons_ne _ (Ne.symm hac),
            List.indexOf_cons_ne _ (Ne.symm hbc)] at hlt
          have h2 := indexOf_lt_of_filter p t a b ha2 hb2 (Nat.succ_lt_succ_iff.mp hlt)
          rw [List.indexOf_cons_ne t (Ne.symm hac), List.indexOf_cons_ne t (Ne.symm hbc)]
          exact Nat.succ_lt_succ h2
    · rw [List.filter_cons_of_neg hpc] at ha hb hlt
      have hac : a ≠ c := fun h => hpc (h ▸ (List.mem_filter.mp ha).2)
      have hbc : b ≠ c := fun h => hpc (h ▸ (List.mem_filter.mp hb).2)
      have h2 := indexOf_lt_of_filter p t a b ha hb hlt
      rw [List.indexOf_cons_ne t (Ne.symm hac), List.indexOf_cons_ne t (Ne.symm hbc)]
      exact Nat.succ_lt_succ h2

lemma firstUniqFuel_pairwise :
    ∀ (fuel : Nat) (l : List String), l.length ≤ fuel →
      (firstUniqFuel fuel l).Pairwise (fun a b => l.indexOf a < l.indexOf b)
  | 0, l, h => by
    cases l with
    | nil => exact List.Pairwise.nil
    | cons a t => simp at h
  | _ + 1, [], _ => List.Pairwise.nil
  | fuel + 1, w :: t, h => by
    simp only [firstUniqFuel]
    refine List.Pairwise.cons ?_ ?_
    · intro b hb
      have hbf := firstUniqFuel_subset fuel _ b hb
      have hbw : b ≠ w := by simpa using (List.mem_filter.mp hbf).2
      rw [List.indexOf_cons_self, List.indexOf_cons_ne t (Ne.symm hbw)]
      exact Nat.succ_pos _
    · have hlen : (t.filter (fun y => !(y == w))).length ≤ fuel :=
        le_trans (List.length_filter_le _ _) (Nat.succ_le_succ_iff.mp (by simpa using h))
      have hp := firstUniqFuel_pairwise fuel (t.filter (fun y => !(y == w))) hlen
      refine List.Pairwise.imp_of_mem ?_ hp
      intro a b ha hb hab
      have ha1 := firstUniqFuel_subset fuel _ a ha
      have hb1 := firstUniqFuel_subset fuel _ b hb
      have h2 := indexOf_lt_of_filter _ t a b ha1 hb1 hab
      have haw : a ≠ w := by simpa using (List.mem_filter.mp ha1).2
      have hbw : b ≠ w := by simpa using (List.mem_filter.mp hb1).2
      rw [List.indexOf_cons_ne t (Ne.symm haw), List.indexOf_cons_ne t (Ne.symm hbw)]
      exact Nat.succ_lt_succ h2

lemma counterItems_pairwise (ws : List String) :
    (counterItems ws).Pairwise (fun a b => ws.indexOf a.1 < ws.indexOf b.1) := by
  unfold counterItems
  rw [List.pairwise_map]
  exact firstUniqFuel_pairwise ws.length ws le_rfl

lemma mem_counterItems {ws : List String} {p : String × Nat}
    (hp : p ∈ counterItems ws) : p.2 = ws.count p.1 := by
  obtain ⟨w, -, rfl⟩ := List.mem_map.mp hp
  rfl

lemma counterItems_map_fst (ws : List String) :
    (counterItems ws).map Prod.fst = firstUniq ws := by
  unfold counterItems
  rw [List.map_map]
  exact List.map_id _

/-- C7: for every token sequence the keyword extractor returns exactly
`min 10 d` entries where `d` is the number of distinct tokens (the nodup
first-occurrence list with the same members as the input), never repeats a
token, and lists tokens by nonincreasing frequency, breaking count ties by
the position of each token's first occurrence in the input. -/
theorem C7_keyword_selection (ws : List String) :
    (keywordsOf ws).length = min 10 (firstUniq ws).length ∧
    (firstUniq ws).Nodup ∧
    (∀ w, w ∈ firstUniq ws ↔ w ∈ ws) ∧
    (keywordsOf ws).Nodup ∧
    (keywordsOf ws).Pairwise (fun a b =>
      ws.count b ≤ ws.count a ∧
      (ws.count a = ws.count b → ws.indexOf a < ws.indexOf b)) := by
  have hperm : List.Perm (sortDesc (counterItems ws)) (counterItems ws) :=
    sortDesc_perm _
  refine ⟨?_, firstUniqFuel_nodup _ _, ?_, ?_, ?_⟩
  · unfold keywordsOf most_common
    rw [List.length_map, List.length_take, hperm.length_eq]
    unfold counterItems
    rw [List.length_map]
  · intro x
    exact ⟨fun hx => firstUniqFuel_subset _ _ x hx,
      fun hx => mem_firstUniqFuel _ _ le_rfl x hx⟩
  · unfold keywordsOf most_common
    have h1 : ((counterItems ws).map Prod.fst).Nodup := by
      rw [counterItems_map_fst]
      exact firstUniqFuel_nodup _ _
    have h2 : ((sortDesc (counterItems ws)).map Prod.fst).Nodup :=
      ((hperm.map Prod.fst).nodup_iff).mpr h1
    exact h2.sublist ((List.take_sublist _ _).map Prod.fst)
  · unfold keywordsOf most_common
    have hP := sortDesc_pairwise _ (counterItems ws) (counterItems_pairwise ws)
    have hPt := hP.sublist (List.take_sublist 10 _)
    rw [List.pairwise_map]
    refine List.Pairwise.imp_of_mem ?_ hPt
    intro a b ha hb hab
    have haS : a ∈ counterItems ws :=
      hperm.mem_iff.mp ((List.take_sublist 10 _).subset ha)
    have hbS : b ∈ counterItems ws :=
      hperm.mem_iff.mp ((List.take_sublist 10 _).subset hb)
    have ha2 := mem_counterItems haS
    have hb2 := mem_counterItems hbS
    constructor
    · rw [← ha2, ← hb2]
      exact hab.1
    · intro hcnt
      rw [← ha2, ← hb2] at hcnt
      exact hab.2 (le_of_eq hcnt)

end Parseo
